import Mathlib

/-
Verification of the merge-dedupe-upsert engine of the yc-tracker repository
(src/yc_daily_tracker.py and src/ph_daily_tracker.py).

The embedding below translates the reconciliation code into pure Lean
functions:

* Row-level sheet helpers (`update_sheet_row_by_index`, `append_row_to_sheet`
  in the YC script; `update_row_preserve_date`, `append_row_with_date` in the
  PH script) become pure functions from the read-back existing row and the
  candidate value list to the value list actually written
  (`computeUpdateValues`, `computeAppendValues`).  Machine I/O (the gspread
  calls) is outside the functions' algorithmic content; the
  `try/except -> return False` wrappers mean a call either performs exactly
  this value computation or reports failure, which the run model captures
  with a per-key success oracle.

* The reconciliation loop in `main` becomes a state-passing fold
  (`processOne` / `runLoop` / `runMain`) over the candidate list.  The state
  carries the checkpoint set (`seen`), the set of keys known to exist in the
  sheet (`existing`), the key -> row-position index (`slugToRow`), the
  snapshot rows accumulated so far (`outputs`) and an event trace recording
  every enrichment and gateway invocation together with its reported result.
  External collaborators (the enricher, the gateway success/failure, the
  observation timestamp) are parameters of an `Env` record, mirroring the
  spec's "specified only by interface" collaborators.

* The multi-source merger (`fetch_merged_batch`) becomes `mergeInto` /
  `mergeSources` over association lists in insertion order, matching Python
  dict semantics for the maps the adapters return.
-/

namespace YCTracker

/-- One tracked entity record, with the fields the YC script's merged map
carries (`slug`, `name`, `one_liner`, `url`, `website`) plus the
`founders_json` field that enrichment may fill.  Missing fields are the
empty string, matching the `.get(...) or ""` accesses in the source. -/
structure Company where
  slug : String
  name : String
  one_liner : String
  url : String
  website : String
  founders_json : String
deriving DecidableEq

/-- Association-list lookup keyed by strings; first binding wins, matching
Python dict reads over the maps built in insertion order. -/
def alookup {β : Type} (k : String) : List (String × β) → Option β
  | [] => none
  | (a, b) :: t => if a = k then some b else alookup k t

/-- First-defined option, used to state which source supplies a merged key. -/
def firstSome {β : Type} (x y : Option β) : Option β :=
  match x with
  | some v => some v
  | none => y

/-- Set-insertion on a list of identity keys (`set.add` in the source). -/
def sadd (l : List String) (a : String) : List String :=
  if a ∈ l then l else a :: l

/-- Whether a cell value is blank in Python's sense: `s.strip()` is falsy
exactly when every character of `s` is whitespace (including the empty
string). -/
def isBlank (s : String) : Bool := s.data.all Char.isWhitespace

/-- Pad a row value list with empty strings up to the sheet header length:
`values = values + [""] * (len(SHEET_HEADER) - len(values))`, applied only
when the list is shorter than the header. -/
def padTo (n : Nat) (values : List String) : List String :=
  if values.length < n then values ++ List.replicate (n - values.length) "" else values

/-- Value list written by an update-in-place, from
`update_sheet_row_by_index` (YC) / `update_row_preserve_date` (PH):
pad the candidate values, then, if the read-back existing row has a
non-blank value at the date column, keep that original value; otherwise
stamp the date column with the current time when the candidate also
supplies none. -/
def computeUpdateValues (headerLen dateIdx : Nat) (now : String)
    (existingRow values : List String) : List String :=
  let v := padTo headerLen values
  if existingRow ≠ [] ∧ dateIdx < existingRow.length ∧
      isBlank (existingRow.getD dateIdx "") = false then
    v.set dateIdx (existingRow.getD dateIdx "")
  else if v.getD dateIdx "" = "" then
    v.set dateIdx now
  else
    v

/-- Value list written by a fresh append, from `append_row_to_sheet` (YC) /
`append_row_with_date` (PH): pad the candidate values and stamp the date
column with the current time when the candidate supplies no value there. -/
def computeAppendValues (headerLen dateIdx : Nat) (now : String)
    (values : List String) : List String :=
  let v := padTo headerLen values
  if v.getD dateIdx "" = "" then v.set dateIdx now else v

/-- Position of the first occurrence of a string in a list (Python
`list.index` for the present case). -/
def posOf (a : String) : List String → Nat
  | [] => 0
  | b :: t => if b = a then 0 else posOf a t + 1

namespace YC

/-- Row schema of the YC sheet (`SHEET_HEADER` in yc_daily_tracker.py). -/
def SHEET_HEADER : List String :=
  ["checked_at_utc", "slug", "company_name", "website", "yc_url",
   "company_linked", "founders_json", "one_liner"]

/-- Name of the immutable first-seen column in the YC sheet. -/
def DATE_COL_NAME : String := "checked_at_utc"

/-- Index of the immutable column: `SHEET_HEADER.index(DATE_COL_NAME)`,
falling back to the last column when the header no longer carries it. -/
def DATE_COL_INDEX : Nat :=
  if DATE_COL_NAME ∈ SHEET_HEADER then posOf DATE_COL_NAME SHEET_HEADER
  else SHEET_HEADER.length - 1

/-- Values written by `update_sheet_row_by_index`, given the read-back
existing row and the candidate values. -/
def update_sheet_row_by_index (now : String) (existingRow values : List String) :
    List String :=
  computeUpdateValues SHEET_HEADER.length DATE_COL_INDEX now existingRow values

/-- Values written by `append_row_to_sheet`, given the candidate values. -/
def append_row_to_sheet (now : String) (values : List String) : List String :=
  computeAppendValues SHEET_HEADER.length DATE_COL_INDEX now values

end YC

namespace PH

/-- Row schema of the Product Hunt tab (`SHEET_HEADER` in
ph_daily_tracker.py). -/
def SHEET_HEADER : List String :=
  ["first_seen_at", "ph_id", "name", "tagline", "website_url", "ph_url",
   "logo_url"]

/-- Name of the immutable first-seen column in the PH tab. -/
def DATE_COL_NAME : String := "first_seen_at"

/-- Index of the immutable column, falling back to the first column. -/
def DATE_COL_INDEX : Nat :=
  if DATE_COL_NAME ∈ SHEET_HEADER then posOf DATE_COL_NAME SHEET_HEADER else 0

/-- Values written by `update_row_preserve_date`. -/
def update_row_preserve_date (now : String) (existingRow values : List String) :
    List String :=
  computeUpdateValues SHEET_HEADER.length DATE_COL_INDEX now existingRow values

/-- Values written by `append_row_with_date`. -/
def append_row_with_date (now : String) (values : List String) : List String :=
  computeAppendValues SHEET_HEADER.length DATE_COL_INDEX now values

end PH

/-- Events a run emits: enrichment of a candidate, and each gateway write
with its reported success (`update` for in-place, `append` for fresh rows). -/
inductive Ev where
  | enrich (slug : String)
  | update (slug : String) (rowIdx : Nat) (values : List String) (ok : Bool)
  | append (slug : String) (values : List String) (ok : Bool)
deriving DecidableEq

/-- Identity key an event concerns. -/
def Ev.slugOf : Ev → String
  | .enrich s => s
  | .update s _ _ _ => s
  | .append s _ _ => s

/-- Whether an event is a gateway append. -/
def Ev.isAppend : Ev → Bool
  | .append _ _ _ => true
  | _ => false

/-- Whether a trace contains any gateway append. -/
def hasAppend (tr : List Ev) : Bool := tr.any Ev.isAppend

/-- Whether a trace contains any event for the given identity key. -/
def touchesKey (k : String) (tr : List Ev) : Bool :=
  tr.any (fun ev => Ev.slugOf ev == k)

/-- Keys of gateway writes whose reported result was success. -/
def successSlugs (tr : List Ev) : List String :=
  tr.filterMap (fun ev =>
    match ev with
    | Ev.update s _ _ true => some s
    | Ev.append s _ true => some s
    | _ => none)

/-- Keys of the gateway appends of a trace, in order. -/
def appendSlugs (tr : List Ev) : List String :=
  tr.filterMap (fun ev =>
    match ev with
    | Ev.append s _ _ => some s
    | _ => none)

/-- Events of a trace that do not concern the given key. -/
def filterOut (k : String) (tr : List Ev) : List Ev :=
  tr.filter (fun ev => !(Ev.slugOf ev == k))

/-- External collaborators of one run: whether the spreadsheet gateway is
configured (`gc and SHEET_ID` both present and the client built), the
gateway's per-key success outcome, the enricher, and the observation
timestamp the run stamps rows with. -/
structure Env where
  gcConfigured : Bool
  gwOk : String → Bool
  enr : Company → Company
  now : String

/-- The environment in which key `k`'s gateway write would have succeeded,
everything else unchanged. -/
def envFlip (env : Env) (k : String) : Env :=
  { env with gwOk := fun s => if s = k then true else env.gwOk s }

/-- Mutable state of the reconciliation loop: the checkpoint set `seen`,
the keys known to exist in the sheet `existing`, the key -> row-position
index `slugToRow` (never written by the loop), the snapshot rows, and the
event trace. -/
structure LoopState where
  seen : List String
  existing : List String
  slugToRow : List (String × Nat)
  outputs : List (List String)
  trace : List Ev

/-- Correspondence between the states of two runs that differ only in the
gateway outcome for key `k`: the row index is identical, the `existing` and
`seen` sets agree on every other key, and the snapshot rows and the traces
restricted to other keys are identical. -/
def SimR (k : String) (st st' : LoopState) : Prop :=
  st'.slugToRow = st.slugToRow ∧
  (∀ j, j ≠ k → (j ∈ st.existing ↔ j ∈ st'.existing)) ∧
  (∀ j, j ≠ k → (j ∈ st.seen ↔ j ∈ st'.seen)) ∧
  st'.outputs = st.outputs ∧
  filterOut k st'.trace = filterOut k st.trace

/-- Row value list built for a candidate in the loop body: the `row_obj`
projected onto `SHEET_HEADER` order.  The slug is the pre-enrichment one
(the source captures `slug` before rebinding `comp`), `yc_url` falls back
to the company page URL, `founders_json` to `"[]"`. -/
def buildValuesYC (now slug : String) (c : Company) : List String :=
  [now, slug, c.name, c.website,
   if c.url = "" then "https://www.ycombinator.com/companies/" ++ slug else c.url,
   "",
   if c.founders_json = "" then "[]" else c.founders_json,
   c.one_liner]

/-- Row a candidate contributes to the snapshot and to gateway writes. -/
def candidateRow (env : Env) (c : Company) : List String :=
  buildValuesYC env.now c.slug (env.enr c)

/-- One iteration of the loop over `final_candidates`: enrich, build the
row, pick update-in-place when the key is in both `existing` and
`slugToRow` and append otherwise, and mark the key seen/existing only when
the gateway reported success.  Without a configured gateway nothing is
written and nothing is marked. -/
def processOne (env : Env) (st : LoopState) (c : Company) : LoopState :=
  let slug := c.slug
  let enriched := env.enr c
  let values := buildValuesYC env.now slug enriched
  if env.gcConfigured = true then
    if slug ∈ st.existing ∧ (alookup slug st.slugToRow).isSome = true then
      let ok := env.gwOk slug
      { seen := if ok = true then sadd st.seen slug else st.seen
        existing := if ok = true then sadd st.existing slug else st.existing
        slugToRow := st.slugToRow
        outputs := st.outputs ++ [values]
        trace := st.trace ++ [Ev.enrich slug,
          Ev.update slug ((alookup slug st.slugToRow).getD 0) values ok] }
    else
      let ok := env.gwOk slug
      { seen := if ok = true then sadd st.seen slug else st.seen
        existing := if ok = true then sadd st.existing slug else st.existing
        slugToRow := st.slugToRow
        outputs := st.outputs ++ [values]
        trace := st.trace ++ [Ev.enrich slug, Ev.append slug values ok] }
  else
    { seen := st.seen
      existing := st.existing
      slugToRow := st.slugToRow
      outputs := st.outputs ++ [values]
      trace := st.trace ++ [Ev.enrich slug] }

/-- Events one candidate contributes to the trace (used to characterise
`processOne`). -/
def stepEvents (env : Env) (st : LoopState) (c : Company) : List Ev :=
  Ev.enrich c.slug ::
    (if env.gcConfigured = true then
      (if c.slug ∈ st.existing ∧ (alookup c.slug st.slugToRow).isSome = true then
        [Ev.update c.slug ((alookup c.slug st.slugToRow).getD 0)
          (candidateRow env c) (env.gwOk c.slug)]
      else
        [Ev.append c.slug (candidateRow env c) (env.gwOk c.slug)])
    else [])

/-- The whole candidate loop of `main`. -/
def runLoop (env : Env) (st : LoopState) : List Company → LoopState
  | [] => st
  | c :: cs => runLoop env (processOne env st c) cs

/-- What a run leaves behind: the persisted checkpoint set, the snapshot
artifact (`none` when the run returned before writing one), and the trace. -/
structure RunResult where
  seen : List String
  snapshot : Option (List (List String))
  trace : List Ev

/-- Loop state at the start of candidate processing: the checkpoint set as
loaded, and `existing` / `slugToRow` as returned by
`read_existing_sheet_slugs_and_row` (the set is exactly the keys of the
index). -/
def initState (seen0 : List String) (index0 : List (String × Nat)) : LoopState :=
  { seen := seen0
    existing := index0.map Prod.fst
    slugToRow := index0
    outputs := []
    trace := [] }

/-- Candidate selection of `main`: keep merged records with a non-empty
key, then drop keys already in the loaded checkpoint set. -/
def finalCandidates (seen0 : List String) (merged : List Company) : List Company :=
  (merged.filter (fun c => decide (c.slug ≠ ""))).filter
    (fun c => decide (c.slug ∉ seen0))

/-- The reconciliation run of `main`, from the loaded checkpoint set, the
remote index read at startup, and the merged source map (given as its
records in insertion order).  When no candidate survives the checkpoint
filter the run saves the unchanged checkpoint set and returns without
writing a snapshot; otherwise it processes every candidate and writes the
snapshot of all of them. -/
def runMain (env : Env) (seen0 : List String) (index0 : List (String × Nat))
    (merged : List Company) : RunResult :=
  let final := finalCandidates seen0 merged
  if final = [] then
    { seen := seen0, snapshot := none, trace := [] }
  else
    let st := runLoop env (initState seen0 index0) final
    { seen := st.seen, snapshot := some st.outputs, trace := st.trace }

/-- First-wins merge of one source map into the accumulator
(`for s, comp in src.items(): if s not in slug_map: slug_map[s] = comp`). -/
def mergeInto (acc src : List (String × Company)) : List (String × Company) :=
  src.foldl (fun m kv => if (alookup kv.1 m).isSome = true then m else m ++ [kv]) acc

/-- Merge of an ordered sequence of source maps, highest trust first. -/
def mergeSources (srcs : List (List (String × Company))) : List (String × Company) :=
  srcs.foldl mergeInto []

/-- The source-combination logic of `fetch_merged_batch`: start with the
yc-oss JSON map, fill gaps from the static scrape, and fill gaps from the
rendered fallback only when the static scrape was empty or a policy flag
forces it. -/
def fetch_merged_batch (jsonMap siteMap pwMap : List (String × Company))
    (force usePw : Bool) : List (String × Company) :=
  let m := mergeInto jsonMap siteMap
  if siteMap = [] ∨ force = true ∨ usePw = true then mergeInto m pwMap else m

/-- Concrete candidate with identity key "a" (witness input). -/
def cA : Company := ⟨"a", "", "", "", "", ""⟩

/-- Concrete candidate with identity key "b" (witness input). -/
def cB : Company := ⟨"b", "", "", "", "", ""⟩

/-- Environment with a configured gateway that acknowledges every write. -/
def envOk : Env := ⟨true, fun _ => true, fun c => c, "t"⟩

/-- Environment without a configured spreadsheet gateway. -/
def envNoGc : Env := ⟨false, fun _ => true, fun c => c, "t"⟩

/-- Environment with a configured gateway that rejects every write. -/
def envFailAll : Env := ⟨true, fun _ => false, fun c => c, "t"⟩

/-- Empty loop state (empty sheet, fresh checkpoint set). -/
def st0 : LoopState := ⟨[], [], [], [], []⟩

/-- Record named "Foo" (merger-precedence example). -/
def recFoo : Company := ⟨"", "Foo", "", "", "", ""⟩

/-- Record named "Bar" (merger-precedence example). -/
def recBar : Company := ⟨"", "Bar", "", "", "", ""⟩

/-- Record named "Baz" (merger-precedence example). -/
def recBaz : Company := ⟨"", "Baz", "", "", "", ""⟩

/-! Basic lemmas about the small helpers. -/

theorem mem_sadd {l : List String} {a b : String} :
    a ∈ sadd l b ↔ a = b ∨ a ∈ l := by
  unfold sadd
  split
  · rename_i h
    constructor
    · exact fun ha => Or.inr ha
    · rintro (rfl | ha)
      · exact h
      · exact ha
  · simp [List.mem_cons]

theorem alookup_isSome {β : Type} {k : String} {l : List (String × β)} :
    (alookup k l).isSome = true ↔ k ∈ l.map Prod.fst := by
  induction l with
  | nil => simp [alookup]
  | cons p t ih =>
    obtain ⟨a, b⟩ := p
    by_cases h : a = k
    · subst h
      simp [alookup]
    · simp [alookup, h, ih, Ne.symm h]

theorem alookup_append {β : Type} (k : String) (a b : List (String × β)) :
    alookup k (a ++ b) = firstSome (alookup k a) (alookup k b) := by
  induction a with
  | nil => simp [alookup, firstSome]
  | cons p t ih =>
    obtain ⟨x, y⟩ := p
    by_cases h : x = k
    · simp [alookup, h, firstSome]
    · simp [alookup, h, ih]

theorem padTo_length (n : Nat) (l : List String) : n ≤ (padTo n l).length := by
  unfold padTo
  split
  · rename_i h
    simp [List.length_append, List.length_replicate]
    omega
  · rename_i h
    omega

theorem padTo_ne_nil {n : Nat} (hn : 0 < n) (l : List String) : padTo n l ≠ [] := by
  intro h
  have := padTo_length n l
  rw [h] at this
  simp at this
  omega

theorem padTo_getD_zero (n : Nat) (l : List String) :
    (padTo n l).getD 0 "" = l.getD 0 "" := by
  unfold padTo
  split
  · cases l with
    | nil =>
      cases n with
      | zero => simp at *
      | succ m => simp [List.replicate_succ]
    | cons a t => simp
  · rfl

theorem getD_set_zero {l : List String} (h : l ≠ []) (x d : String) :
    (l.set 0 x).getD 0 d = x := by
  cases l with
  | nil => exact absurd rfl h
  | cons a t => simp

theorem YC_dateIdx : YC.DATE_COL_INDEX = 0 := by decide

theorem PH_dateIdx : PH.DATE_COL_INDEX = 0 := by decide

theorem YC_headerLen : YC.SHEET_HEADER.length = 8 := by decide

theorem PH_headerLen : PH.SHEET_HEADER.length = 7 := by decide

/-- Generic immutable-column preservation of the update computation, at
date-column index 0: when the read-back existing row has a non-blank value
in the date column, that value is what the written row carries there. -/
theorem computeUpdate_preserves (headerLen : Nat) (hn : 0 < headerLen)
    (now : String) (existingRow values : List String)
    (h : isBlank (existingRow.getD 0 "") = false) :
    (computeUpdateValues headerLen 0 now existingRow values).getD 0 "" =
      existingRow.getD 0 "" := by
  have hne : existingRow ≠ [] := by
    intro hnil
    subst hnil
    simp only [List.getD_nil] at h
    exact absurd h (by decide)
  have hlen : 0 < existingRow.length := List.length_pos.mpr hne
  simp only [computeUpdateValues]
  rw [if_pos ⟨hne, hlen, h⟩]
  exact getD_set_zero (padTo_ne_nil hn values) _ _

/-- Generic fresh-append stamping of the append computation at date-column
index 0: an empty date cell is stamped with the current time, a non-empty
one is kept, and the row is the padded candidate row. -/
theorem computeAppend_stamps (headerLen : Nat) (hn : 0 < headerLen)
    (now : String) (values : List String) :
    (values.getD 0 "" = "" →
      (computeAppendValues headerLen 0 now values).getD 0 "" = now) ∧
    (values.getD 0 "" ≠ "" →
      computeAppendValues headerLen 0 now values = padTo headerLen values) := by
  constructor
  · intro h0
    simp only [computeAppendValues]
    rw [padTo_getD_zero, if_pos h0]
    exact getD_set_zero (padTo_ne_nil hn values) _ _
  · intro h0
    simp only [computeAppendValues]
    rw [padTo_getD_zero, if_neg h0]

/-! Characterisation of one loop iteration, field by field. -/

theorem processOne_seen (env : Env) (st : LoopState) (c : Company) :
    (processOne env st c).seen =
      if env.gcConfigured = true ∧ env.gwOk c.slug = true then sadd st.seen c.slug
      else st.seen := by
  by_cases hgc : env.gcConfigured = true
  · by_cases hbr : c.slug ∈ st.existing ∧ (alookup c.slug st.slugToRow).isSome = true
    · by_cases hok : env.gwOk c.slug = true <;> simp [processOne, hgc, hbr, hok]
    · by_cases hok : env.gwOk c.slug = true <;> simp [processOne, hgc, hbr, hok]
  · simp [processOne, hgc]

theorem processOne_existing (env : Env) (st : LoopState) (c : Company) :
    (processOne env st c).existing =
      if env.gcConfigured = true ∧ env.gwOk c.slug = true then sadd st.existing c.slug
      else st.existing := by
  by_cases hgc : env.gcConfigured = true
  · by_cases hbr : c.slug ∈ st.existing ∧ (alookup c.slug st.slugToRow).isSome = true
    · by_cases hok : env.gwOk c.slug = true <;> simp [processOne, hgc, hbr, hok]
    · by_cases hok : env.gwOk c.slug = true <;> simp [processOne, hgc, hbr, hok]
  · simp [processOne, hgc]

theorem processOne_slugToRow (env : Env) (st : LoopState) (c : Company) :
    (processOne env st c).slugToRow = st.slugToRow := by
  simp only [processOne]
  split
  · split <;> rfl
  · rfl

theorem processOne_outputs (env : Env) (st : LoopState) (c : Company) :
    (processOne env st c).outputs = st.outputs ++ [candidateRow env c] := by
  simp only [processOne, candidateRow]
  split
  · split <;> rfl
  · rfl

theorem processOne_trace (env : Env) (st : LoopState) (c : Company) :
    (processOne env st c).trace = st.trace ++ stepEvents env st c := by
  simp only [processOne, stepEvents, candidateRow]
  split
  · split <;> rfl
  · rfl

theorem stepEvents_slugOf (env : Env) (st : LoopState) (c : Company) :
    ∀ ev ∈ stepEvents env st c, Ev.slugOf ev = c.slug := by
  intro ev hev
  simp only [stepEvents, List.mem_cons] at hev
  rcases hev with rfl | hev
  · rfl
  · split at hev
    · split at hev
      · simp only [List.mem_singleton] at hev; subst hev; rfl
      · simp only [List.mem_singleton] at hev; subst hev; rfl
    · simp at hev

/-! Characterisation of the whole loop. -/

theorem runLoop_slugToRow (env : Env) (cs : List Company) :
    ∀ st : LoopState, (runLoop env st cs).slugToRow = st.slugToRow := by
  induction cs with
  | nil => intro st; rfl
  | cons c cs ih =>
    intro st
    simp only [runLoop]
    rw [ih, processOne_slugToRow]

theorem runLoop_outputs (env : Env) (cs : List Company) :
    ∀ st : LoopState, (runLoop env st cs).outputs =
      st.outputs ++ cs.map (candidateRow env) := by
  induction cs with
  | nil => intro st; simp [runLoop]
  | cons c cs ih =>
    intro st
    simp only [runLoop, List.map_cons]
    rw [ih, processOne_outputs]
    simp

theorem runLoop_seen_mem (env : Env) (cs : List Company) (k : String) :
    ∀ st : LoopState, k ∈ (runLoop env st cs).seen ↔
      k ∈ st.seen ∨ (env.gcConfigured = true ∧ env.gwOk k = true ∧
        k ∈ cs.map (fun c => c.slug)) := by
  induction cs with
  | nil => intro st; simp [runLoop]
  | cons c cs ih =>
    intro st
    simp only [runLoop, List.map_cons, List.mem_cons]
    rw [ih]
    rw [processOne_seen]
    constructor
    · rintro (hmem | hrest)
      · split at hmem
        · rename_i hcond
          rcases mem_sadd.mp hmem with rfl | hl
          · exact Or.inr ⟨hcond.1, hcond.2, Or.inl rfl⟩
          · exact Or.inl hl
        · exact Or.inl hmem
      · exact Or.inr ⟨hrest.1, hrest.2.1, Or.inr hrest.2.2⟩
    · rintro (hl | ⟨hgc, hok, rfl | hcs⟩)
      · left
        split
        · exact mem_sadd.mpr (Or.inr hl)
        · exact hl
      · left
        rw [if_pos ⟨hgc, hok⟩]
        exact mem_sadd.mpr (Or.inl rfl)
      · exact Or.inr ⟨hgc, hok, hcs⟩

theorem runLoop_existing_mono (env : Env) (cs : List Company) (k : String) :
    ∀ st : LoopState, k ∈ st.existing → k ∈ (runLoop env st cs).existing := by
  induction cs with
  | nil => intro st h; exact h
  | cons c cs ih =>
    intro st h
    simp only [runLoop]
    apply ih
    rw [processOne_existing]
    split
    · exact mem_sadd.mpr (Or.inr h)
    · exact h

theorem runLoop_trace_slugs (env : Env) (cs : List Company) :
    ∀ st : LoopState, ∀ ev ∈ (runLoop env st cs).trace,
      ev ∈ st.trace ∨ Ev.slugOf ev ∈ cs.map (fun c => c.slug) := by
  induction cs with
  | nil => intro st ev hev; exact Or.inl hev
  | cons c cs ih =>
    intro st ev hev
    simp only [runLoop] at hev
    rcases ih (processOne env st c) ev hev with hin | hin
    · rw [processOne_trace] at hin
      rcases List.mem_append.mp hin with hin | hin
      · exact Or.inl hin
      · right
        rw [stepEvents_slugOf env st c ev hin]
        simp
    · right
      simp [hin]

/-! Trace-content lemmas. -/

theorem hasAppend_append (a b : List Ev) :
    hasAppend (a ++ b) = (hasAppend a || hasAppend b) := by
  simp [hasAppend, List.any_append]

theorem stepEvents_hasAppend_false (env : Env) (st : LoopState) (c : Company)
    (h : env.gcConfigured = true →
      c.slug ∈ st.existing ∧ (alookup c.slug st.slugToRow).isSome = true) :
    hasAppend (stepEvents env st c) = false := by
  by_cases hgc : env.gcConfigured = true
  · simp [stepEvents, hasAppend, hgc, if_pos (h hgc), Ev.isAppend]
  · simp [stepEvents, hasAppend, hgc, Ev.isAppend]

theorem runLoop_no_append (env : Env) (cs : List Company) :
    ∀ st : LoopState, hasAppend st.trace = false →
      (∀ c ∈ cs, c.slug ∈ st.existing ∧
        (alookup c.slug st.slugToRow).isSome = true) →
      hasAppend (runLoop env st cs).trace = false := by
  induction cs with
  | nil => intro st h _; exact h
  | cons c cs ih =>
    intro st h hc
    simp only [runLoop]
    apply ih
    · rw [processOne_trace, hasAppend_append, h]
      simp
      exact stepEvents_hasAppend_false env st c
        (fun _ => hc c (List.mem_cons_self c cs))
    · intro c' hc'
      have hold := hc c' (List.mem_cons_of_mem c hc')
      constructor
      · rw [processOne_existing]
        split
        · exact mem_sadd.mpr (Or.inr hold.1)
        · exact hold.1
      · rw [processOne_slugToRow]
        exact hold.2

theorem successSlugs_append (a b : List Ev) :
    successSlugs (a ++ b) = successSlugs a ++ successSlugs b := by
  simp [successSlugs, List.filterMap_append]

theorem stepEvents_successSlugs (env : Env) (st : LoopState) (c : Company) :
    successSlugs (stepEvents env st c) =
      if env.gcConfigured = true ∧ env.gwOk c.slug = true then [c.slug] else [] := by
  by_cases hgc : env.gcConfigured = true
  · by_cases hbr : c.slug ∈ st.existing ∧ (alookup c.slug st.slugToRow).isSome = true
    · cases hok : env.gwOk c.slug <;>
        simp [stepEvents, successSlugs, hgc, hbr, hok]
    · cases hok : env.gwOk c.slug <;>
        simp [stepEvents, successSlugs, hgc, hbr, hok]
  · simp [stepEvents, successSlugs, hgc]

theorem runLoop_successSlugs_mem (env : Env) (cs : List Company) (k : String) :
    ∀ st : LoopState, k ∈ successSlugs (runLoop env st cs).trace ↔
      k ∈ successSlugs st.trace ∨ (env.gcConfigured = true ∧ env.gwOk k = true ∧
        k ∈ cs.map (fun c => c.slug)) := by
  induction cs with
  | nil => intro st; simp [runLoop]
  | cons c cs ih =>
    intro st
    simp only [runLoop, List.map_cons, List.mem_cons]
    rw [ih, processOne_trace, successSlugs_append, stepEvents_successSlugs]
    constructor
    · rintro (hmem | hrest)
      · rcases List.mem_append.mp hmem with hl | hr
        · exact Or.inl hl
        · split at hr
          · rename_i hcond
            simp only [List.mem_singleton] at hr
            subst hr
            exact Or.inr ⟨hcond.1, hcond.2, Or.inl rfl⟩
          · simp at hr
      · exact Or.inr ⟨hrest.1, hrest.2.1, Or.inr hrest.2.2⟩
    · rintro (hl | ⟨hgc, hok, rfl | hcs⟩)
      · exact Or.inl (List.mem_append.mpr (Or.inl hl))
      · left
        apply List.mem_append.mpr
        right
        rw [if_pos ⟨hgc, hok⟩]
        simp
      · exact Or.inr ⟨hgc, hok, hcs⟩

theorem touchesKey_append (k : String) (a b : List Ev) :
    touchesKey k (a ++ b) = (touchesKey k a || touchesKey k b) := by
  simp [touchesKey, List.any_append]

theorem stepEvents_touchesKey (env : Env) (st : LoopState) (c : Company)
    (k : String) (h : c.slug ≠ k) :
    touchesKey k (stepEvents env st c) = false := by
  rw [touchesKey, List.any_eq_false]
  intro ev hev
  rw [stepEvents_slugOf env st c ev hev]
  simp [h]

theorem runLoop_touchesKey (env : Env) (cs : List Company) (k : String) :
    ∀ st : LoopState, touchesKey k st.trace = false →
      k ∉ cs.map (fun c => c.slug) →
      touchesKey k (runLoop env st cs).trace = false := by
  induction cs with
  | nil => intro st h _; exact h
  | cons c cs ih =>
    intro st h hk
    simp only [List.map_cons, List.mem_cons] at hk
    push_neg at hk
    simp only [runLoop]
    apply ih
    · rw [processOne_trace, touchesKey_append, h]
      simp
      exact stepEvents_touchesKey env st c k (fun he => hk.1 he.symm)
    · exact hk.2

theorem appendSlugs_append (a b : List Ev) :
    appendSlugs (a ++ b) = appendSlugs a ++ appendSlugs b := by
  simp [appendSlugs, List.filterMap_append]

theorem stepEvents_appendSlugs_sublist (env : Env) (st : LoopState) (c : Company) :
    List.Sublist (appendSlugs (stepEvents env st c)) [c.slug] := by
  by_cases hgc : env.gcConfigured = true
  · by_cases hbr : c.slug ∈ st.existing ∧ (alookup c.slug st.slugToRow).isSome = true
    · simp [stepEvents, appendSlugs, hgc, hbr]
    · simp [stepEvents, appendSlugs, hgc, hbr]
  · simp [stepEvents, appendSlugs, hgc]

theorem runLoop_appendSlugs_sublist (env : Env) (cs : List Company) :
    ∀ st : LoopState, List.Sublist (appendSlugs (runLoop env st cs).trace)
      (appendSlugs st.trace ++ cs.map (fun c => c.slug)) := by
  induction cs with
  | nil => intro st; simp [runLoop]
  | cons c cs ih =>
    intro st
    simp only [runLoop, List.map_cons]
    refine (ih (processOne env st c)).trans ?_
    rw [processOne_trace, appendSlugs_append]
    rw [List.append_assoc]
    apply List.Sublist.append_left
    have h1 : List.Sublist (appendSlugs (stepEvents env st c) ++ cs.map (fun c => c.slug))
        ([c.slug] ++ cs.map (fun c => c.slug)) :=
      List.Sublist.append_right (stepEvents_appendSlugs_sublist env st c) _
    simpa using h1

/-! Merger lemmas. -/

theorem firstSome_none_right {β : Type} (x : Option β) : firstSome x none = x := by
  cases x <;> rfl

theorem firstSome_assoc {β : Type} (x y z : Option β) :
    firstSome (firstSome x y) z = firstSome x (firstSome y z) := by
  cases x <;> rfl

theorem mergeInto_alookup (k : String) (b : List (String × Company)) :
    ∀ a, alookup k (mergeInto a b) = firstSome (alookup k a) (alookup k b) := by
  induction b with
  | nil =>
    intro a
    simp only [mergeInto, List.foldl_nil, alookup]
    exact (firstSome_none_right _).symm
  | cons kv t ih =>
    intro a
    obtain ⟨x, y⟩ := kv
    have step : mergeInto a ((x, y) :: t) =
        mergeInto (if (alookup x a).isSome = true then a else a ++ [(x, y)]) t := rfl
    rw [step]
    by_cases hx : (alookup x a).isSome = true
    · rw [if_pos hx, ih]
      by_cases hxk : x = k
      · subst hxk
        obtain ⟨v, hv⟩ := Option.isSome_iff_exists.mp hx
        rw [hv]
        rfl
      · simp [alookup, hxk]
    · rw [if_neg hx, ih, alookup_append]
      by_cases hxk : x = k
      · subst hxk
        have hnone : alookup x a = none := by
          cases hc : alookup x a
          · rfl
          · rw [hc] at hx; simp at hx
        simp [hnone, alookup, firstSome]
      · simp [alookup, hxk, firstSome_none_right]

theorem mergeSources_foldl_alookup (k : String) (srcs : List (List (String × Company))) :
    ∀ a, alookup k (srcs.foldl mergeInto a) =
      firstSome (alookup k a) (srcs.findSome? (fun s => alookup k s)) := by
  induction srcs with
  | nil =>
    intro a
    simp only [List.foldl_nil, List.findSome?_nil]
    exact (firstSome_none_right _).symm
  | cons s t ih =>
    intro a
    simp only [List.foldl_cons, List.findSome?_cons]
    rw [ih, mergeInto_alookup, firstSome_assoc]
    cases hs : alookup k s <;> rfl

theorem mergeSources_alookup (k : String) (srcs : List (List (String × Company))) :
    alookup k (mergeSources srcs) = srcs.findSome? (fun s => alookup k s) := by
  rw [mergeSources, mergeSources_foldl_alookup]
  rfl

theorem fetch_merged_batch_alookup (jm sm pm : List (String × Company))
    (f u : Bool) (k : String) :
    alookup k (fetch_merged_batch jm sm pm f u) =
      firstSome (alookup k jm) (firstSome (alookup k sm)
        (if sm = [] ∨ f = true ∨ u = true then alookup k pm else none)) := by
  simp only [fetch_merged_batch]
  split
  · rw [mergeInto_alookup, mergeInto_alookup, firstSome_assoc]
  · rw [mergeInto_alookup, firstSome_none_right]

/-! Bisimulation between a run and the run where key k's write succeeds. -/

theorem filterOut_append (k : String) (a b : List Ev) :
    filterOut k (a ++ b) = filterOut k a ++ filterOut k b := by
  simp [filterOut, List.filter_append]

theorem stepEvents_filterOut_self (env : Env) (st : LoopState) (c : Company) :
    filterOut c.slug (stepEvents env st c) = [] := by
  rw [filterOut, List.filter_eq_nil_iff]
  intro ev hev
  rw [stepEvents_slugOf env st c ev hev]
  simp

theorem mem_if_sadd {j a : String} {l : List String} (hj : j ≠ a)
    (P : Prop) [Decidable P] :
    (j ∈ (if P then sadd l a else l)) ↔ j ∈ l := by
  split
  · rw [mem_sadd]
    simp [hj]
  · exact Iff.rfl

theorem envFlip_gwOk_ne {env : Env} {k s : String} (h : s ≠ k) :
    (envFlip env k).gwOk s = env.gwOk s := by
  simp [envFlip, h]

theorem candidateRow_envFlip (env : Env) (k : String) (c : Company) :
    candidateRow (envFlip env k) c = candidateRow env c := rfl

theorem stepEvents_flip_eq (env : Env) (k : String) (st st' : LoopState)
    (c : Company) (hck : c.slug ≠ k)
    (hrow : st'.slugToRow = st.slugToRow)
    (hex : c.slug ∈ st.existing ↔ c.slug ∈ st'.existing) :
    stepEvents (envFlip env k) st' c = stepEvents env st c := by
  have hgw : (envFlip env k).gwOk c.slug = env.gwOk c.slug := envFlip_gwOk_ne hck
  have hgc : (envFlip env k).gcConfigured = env.gcConfigured := rfl
  rw [stepEvents, stepEvents, hgw, hgc, hrow, candidateRow_envFlip]
  by_cases hgcb : env.gcConfigured = true
  · rw [if_pos hgcb, if_pos hgcb]
    by_cases hb : c.slug ∈ st.existing ∧ (alookup c.slug st.slugToRow).isSome = true
    · have hb' : c.slug ∈ st'.existing ∧ (alookup c.slug st.slugToRow).isSome = true :=
        ⟨hex.mp hb.1, hb.2⟩
      rw [if_pos hb', if_pos hb]
    · have hb' : ¬(c.slug ∈ st'.existing ∧ (alookup c.slug st.slugToRow).isSome = true) :=
        fun hb2 => hb ⟨hex.mpr hb2.1, hb2.2⟩
      rw [if_neg hb', if_neg hb]
  · rw [if_neg hgcb, if_neg hgcb]

theorem simR_processOne (env : Env) (k : String) (c : Company)
    (st st' : LoopState) (h : SimR k st st') :
    SimR k (processOne env st c) (processOne (envFlip env k) st' c) := by
  obtain ⟨hrow, hex, hseen, hout, htr⟩ := h
  by_cases hck : c.slug = k
  · refine ⟨?_, ?_, ?_, ?_, ?_⟩
    · rw [processOne_slugToRow, processOne_slugToRow, hrow]
    · intro j hj
      rw [processOne_existing, processOne_existing]
      have hjc : j ≠ c.slug := by rw [hck]; exact hj
      rw [mem_if_sadd hjc, mem_if_sadd hjc]
      exact hex j hj
    · intro j hj
      rw [processOne_seen, processOne_seen]
      have hjc : j ≠ c.slug := by rw [hck]; exact hj
      rw [mem_if_sadd hjc, mem_if_sadd hjc]
      exact hseen j hj
    · rw [processOne_outputs, processOne_outputs, hout, candidateRow_envFlip]
    · rw [processOne_trace, processOne_trace, filterOut_append, filterOut_append,
        htr]
      have h1 : filterOut k (stepEvents (envFlip env k) st' c) = [] := by
        rw [← hck]
        exact stepEvents_filterOut_self _ _ _
      have h2 : filterOut k (stepEvents env st c) = [] := by
        rw [← hck]
        exact stepEvents_filterOut_self _ _ _
      rw [h1, h2]
  · have hgw : (envFlip env k).gwOk c.slug = env.gwOk c.slug := envFlip_gwOk_ne hck
    have hgc : (envFlip env k).gcConfigured = env.gcConfigured := rfl
    refine ⟨?_, ?_, ?_, ?_, ?_⟩
    · rw [processOne_slugToRow, processOne_slugToRow, hrow]
    · intro j hj
      rw [processOne_existing, processOne_existing, hgw, hgc]
      by_cases hcnd : env.gcConfigured = true ∧ env.gwOk c.slug = true
      · rw [if_pos hcnd, if_pos hcnd, mem_sadd, mem_sadd]
        by_cases hjc : j = c.slug
        · simp [hjc]
        · simp [hjc, hex j hj]
      · rw [if_neg hcnd, if_neg hcnd]
        exact hex j hj
    · intro j hj
      rw [processOne_seen, processOne_seen, hgw, hgc]
      by_cases hcnd : env.gcConfigured = true ∧ env.gwOk c.slug = true
      · rw [if_pos hcnd, if_pos hcnd, mem_sadd, mem_sadd]
        by_cases hjc : j = c.slug
        · simp [hjc]
        · simp [hjc, hseen j hj]
      · rw [if_neg hcnd, if_neg hcnd]
        exact hseen j hj
    · rw [processOne_outputs, processOne_outputs, hout, candidateRow_envFlip]
    · rw [processOne_trace, processOne_trace, filterOut_append, filterOut_append,
        htr, stepEvents_flip_eq env k st st' c hck hrow (hex c.slug hck)]

theorem simR_runLoop (env : Env) (k : String) (cs : List Company) :
    ∀ st st' : LoopState, SimR k st st' →
      SimR k (runLoop env st cs) (runLoop (envFlip env k) st' cs) := by
  induction cs with
  | nil => intro st st' h; exact h
  | cons c cs ih =>
    intro st st' h
    simp only [runLoop]
    exact ih _ _ (simR_processOne env k c st st' h)

theorem simR_refl (k : String) (st : LoopState) : SimR k st st :=
  ⟨rfl, fun _ _ => Iff.rfl, fun _ _ => Iff.rfl, rfl, rfl⟩

/-! Candidate-selection lemmas and runMain unfoldings. -/

theorem mem_finalCandidates (seen0 : List String) (merged : List Company)
    (c : Company) :
    c ∈ finalCandidates seen0 merged ↔
      c ∈ merged ∧ c.slug ≠ "" ∧ c.slug ∉ seen0 := by
  simp only [finalCandidates, List.mem_filter, decide_eq_true_eq, and_assoc]

theorem finalCandidates_slugs_sub (seen0 : List String) (merged : List Company)
    (k : String) (h : k ∈ (finalCandidates seen0 merged).map (fun c => c.slug)) :
    k ∈ merged.map (fun c => c.slug) ∧ k ≠ "" ∧ k ∉ seen0 := by
  obtain ⟨c, hc, rfl⟩ := List.mem_map.mp h
  obtain ⟨hm, hne, hns⟩ := (mem_finalCandidates seen0 merged c).mp hc
  exact ⟨List.mem_map.mpr ⟨c, hm, rfl⟩, hne, hns⟩

theorem runMain_of_ne (env : Env) (seen0 : List String)
    (index0 : List (String × Nat)) (merged : List Company)
    (h : finalCandidates seen0 merged ≠ []) :
    runMain env seen0 index0 merged =
      { seen := (runLoop env (initState seen0 index0)
          (finalCandidates seen0 merged)).seen
        snapshot := some ((runLoop env (initState seen0 index0)
          (finalCandidates seen0 merged)).outputs)
        trace := (runLoop env (initState seen0 index0)
          (finalCandidates seen0 merged)).trace } := by
  simp only [runMain]
  rw [if_neg h]

theorem runMain_of_nil (env : Env) (seen0 : List String)
    (index0 : List (String × Nat)) (merged : List Company)
    (h : finalCandidates seen0 merged = []) :
    runMain env seen0 index0 merged =
      { seen := seen0, snapshot := none, trace := [] } := by
  simp only [runMain]
  rw [if_pos h]

/-! Claim theorems. -/

/-- C1: for an identity key already present in the remote ledger whose
existing row carries a non-blank value at the immutable column index, the
row written by an update-in-place keeps exactly that stored value at the
immutable column — the candidate's newly computed timestamp is discarded
and the previously stored value is written back — for every candidate row
value sequence, in both tracker variants. -/
theorem C1_immutable_preservation (now : String) (existingRow values : List String)
    (h : isBlank (existingRow.getD 0 "") = false) :
    (YC.update_sheet_row_by_index now existingRow values).getD 0 "" =
      existingRow.getD 0 "" ∧
    (PH.update_row_preserve_date now existingRow values).getD 0 "" =
      existingRow.getD 0 "" := by
  constructor
  · unfold YC.update_sheet_row_by_index
    rw [YC_dateIdx]
    exact computeUpdate_preserves _ (by decide) now existingRow values h
  · unfold PH.update_row_preserve_date
    rw [PH_dateIdx]
    exact computeUpdate_preserves _ (by decide) now existingRow values h

/-- C1 witness: a concrete re-observation whose stored first-seen value
survives the update in both variants. -/
theorem C1_witness :
    (YC.update_sheet_row_by_index "2025-06-01T00:00:00" ["2025-01-01T00:00:00", "old"]
      ["2025-06-01T00:00:00", "s"]).getD 0 "" = "2025-01-01T00:00:00" ∧
    (PH.update_row_preserve_date "2025-06-01T00:00:00" ["2025-01-01T00:00:00", "old"]
      ["2025-06-01T00:00:00", "s"]).getD 0 "" = "2025-01-01T00:00:00" :=
  ⟨((C1_immutable_preservation "2025-06-01T00:00:00" ["2025-01-01T00:00:00", "old"]
      ["2025-06-01T00:00:00", "s"] (by decide)).1).trans (by decide),
   ((C1_immutable_preservation "2025-06-01T00:00:00" ["2025-01-01T00:00:00", "old"]
      ["2025-06-01T00:00:00", "s"] (by decide)).2).trans (by decide)⟩

/-- C2: a run with a fresh (empty) checkpoint set whose remote ledger
index already contains every identity key of the merged source map never
invokes the append operation: every candidate resolves to
update-in-place, so no duplicate remote rows are created. -/
theorem C2_idempotent_no_append (env : Env) (index0 : List (String × Nat))
    (merged : List Company)
    (hidx : ∀ c ∈ merged, c.slug ≠ "" → (alookup c.slug index0).isSome = true) :
    hasAppend (runMain env [] index0 merged).trace = false := by
  by_cases hfin : finalCandidates [] merged = []
  · rw [runMain_of_nil env [] index0 merged hfin]
    rfl
  · rw [runMain_of_ne env [] index0 merged hfin]
    show hasAppend (runLoop env (initState [] index0)
      (finalCandidates [] merged)).trace = false
    apply runLoop_no_append
    · rfl
    · intro c hc
      obtain ⟨hm, hne, _⟩ := (mem_finalCandidates [] merged c).mp hc
      have hsome := hidx c hm hne
      exact ⟨alookup_isSome.mp hsome, hsome⟩

/-- C2 witness: a concrete second run over an already-populated sheet
performs no append. -/
theorem C2_witness : hasAppend (runMain envOk [] [("a", 2)] [cA]).trace = false :=
  C2_idempotent_no_append envOk [("a", 2)] [cA] (by decide)

/-- C3 counterexample: key "r" is in the remote ledger index and absent
from the loaded checkpoint set, the run completes with every gateway
write acknowledged, yet "r" was never folded into the checkpoint set: the
persisted set is exactly ["b"] and is not a superset of the remote
index's keys. -/
theorem C3_counterexample :
    "r" ∈ ([("r", 2), ("b", 3)] : List (String × Nat)).map Prod.fst ∧
    (runMain envOk [] [("r", 2), ("b", 3)] [cB]).seen = ["b"] ∧
    "r" ∉ (runMain envOk [] [("r", 2), ("b", 3)] [cB]).seen :=
  ⟨by decide, by decide, by decide⟩

/-- C3 (amended): no start-of-run fold into the checkpoint set happens;
the checkpoint set changes only through acknowledged gateway writes, so a
key absent from both the loaded checkpoint set and the merged source map
remains absent from the persisted checkpoint set even when it is present
in the remote ledger index. -/
theorem C3_no_fold_amended (env : Env) (seen0 : List String)
    (index0 : List (String × Nat)) (merged : List Company) (k : String)
    (hs : k ∉ seen0) (hm : k ∉ merged.map (fun c => c.slug)) :
    k ∉ (runMain env seen0 index0 merged).seen := by
  by_cases hfin : finalCandidates seen0 merged = []
  · rw [runMain_of_nil env seen0 index0 merged hfin]
    exact hs
  · rw [runMain_of_ne env seen0 index0 merged hfin]
    intro hmem
    rcases (runLoop_seen_mem env (finalCandidates seen0 merged) k
        (initState seen0 index0)).mp hmem with hin | ⟨_, _, hin⟩
    · exact hs hin
    · exact hm (finalCandidates_slugs_sub seen0 merged k hin).1

/-- C3 witness: a remote-only key stays out of the checkpoint set. -/
theorem C3_witness : "q" ∉ (runMain envOk [] [("q", 2)] [cB]).seen :=
  C3_no_fold_amended envOk [] [("q", 2)] [cB] "q" (by decide) (by decide)

/-- C4 counterexample: after a successful append of key "a" (which adds
"a" to the checkpoint set and the existing-keys set), a later candidate
carrying the same key in the same run is again resolved to the append
branch — the key -> row-position index was not extended — so a second
append for "a" occurs, contradicting "resolves it to update-in-place,
never to a second append". -/
theorem C4_counterexample :
    appendSlugs (runLoop envOk st0 [cA, cA]).trace = ["a", "a"] := by decide

/-- C4 (amended): on gateway success the key is added to the checkpoint
set and to the existing-keys set, but not to the key -> row-position
index, so a later same-key candidate resolves to update-in-place only
when the key already had a row position at run start; nevertheless the
merged source map's keys are distinct, so within one merged batch no key
is ever appended twice. -/
theorem C4_success_marks_amended (env : Env) (st : LoopState) (c : Company)
    (seen0 : List String) (index0 : List (String × Nat)) (merged : List Company)
    (hgc : env.gcConfigured = true) (hok : env.gwOk c.slug = true)
    (hnd : (merged.map (fun c => c.slug)).Nodup) :
    (c.slug ∈ (processOne env st c).seen ∧
      c.slug ∈ (processOne env st c).existing) ∧
    (appendSlugs (runMain env seen0 index0 merged).trace).Nodup := by
  constructor
  · constructor
    · rw [processOne_seen, if_pos ⟨hgc, hok⟩]
      exact mem_sadd.mpr (Or.inl rfl)
    · rw [processOne_existing, if_pos ⟨hgc, hok⟩]
      exact mem_sadd.mpr (Or.inl rfl)
  · by_cases hfin : finalCandidates seen0 merged = []
    · rw [runMain_of_nil env seen0 index0 merged hfin]
      exact List.nodup_nil
    · rw [runMain_of_ne env seen0 index0 merged hfin]
      have hsub := runLoop_appendSlugs_sublist env (finalCandidates seen0 merged)
        (initState seen0 index0)
      have hfs : List.Sublist
          ((finalCandidates seen0 merged).map (fun c => c.slug))
          (merged.map (fun c => c.slug)) :=
        List.Sublist.map _
          (((merged.filter _).filter_sublist).trans (merged.filter_sublist))
      have hnd2 : ((finalCandidates seen0 merged).map (fun c => c.slug)).Nodup :=
        List.Nodup.sublist hfs hnd
      refine List.Nodup.sublist ?_ hnd2
      exact hsub

/-- C4 witness: a successful candidate is marked seen and existing, and a
distinct-key batch produces no duplicate appends. -/
theorem C4_witness :
    ("a" ∈ (processOne envOk st0 cA).seen ∧
      "a" ∈ (processOne envOk st0 cA).existing) ∧
    (appendSlugs (runMain envOk [] [] [cA]).trace).Nodup :=
  C4_success_marks_amended envOk st0 cA [] [] [cA] rfl rfl (by decide)

/-- C5: the merged result binds every identity key to the record of the
earliest (highest-trust) source supplying it — a later source never
overwrites a present key and only fills gaps — stated for the two-source
merge step, for any ordered sequence of sources, and for the whole
`fetch_merged_batch` chain; and on the spec's concrete example, merging
A = x->Foo then B = x->Bar, y->Baz yields x->Foo, y->Baz. -/
theorem C5_merger_precedence :
    (∀ (a b : List (String × Company)) (k : String),
      alookup k (mergeInto a b) = firstSome (alookup k a) (alookup k b)) ∧
    (∀ (srcs : List (List (String × Company))) (k : String),
      alookup k (mergeSources srcs) = srcs.findSome? (fun s => alookup k s)) ∧
    (∀ (jm sm pm : List (String × Company)) (f u : Bool) (k : String),
      alookup k (fetch_merged_batch jm sm pm f u) =
        firstSome (alookup k jm) (firstSome (alookup k sm)
          (if sm = [] ∨ f = true ∨ u = true then alookup k pm else none))) ∧
    fetch_merged_batch [("x", recFoo)] [("x", recBar), ("y", recBaz)] []
      false false = [("x", recFoo), ("y", recBaz)] :=
  ⟨fun a b k => mergeInto_alookup k b a,
   fun srcs k => mergeSources_alookup k srcs,
   fun jm sm pm f u k => fetch_merged_batch_alookup jm sm pm f u k,
   by decide⟩

/-- C6: an identity key in the checkpoint set loaded at run start is never
enriched and never written — no event of the run concerns it — even when
it also appears in the merged source map. -/
theorem C6_checkpoint_gating (env : Env) (seen0 : List String)
    (index0 : List (String × Nat)) (merged : List Company) (k : String)
    (hk : k ∈ seen0) :
    touchesKey k (runMain env seen0 index0 merged).trace = false := by
  by_cases hfin : finalCandidates seen0 merged = []
  · rw [runMain_of_nil env seen0 index0 merged hfin]
    rfl
  · rw [runMain_of_ne env seen0 index0 merged hfin]
    show touchesKey k (runLoop env (initState seen0 index0)
      (finalCandidates seen0 merged)).trace = false
    apply runLoop_touchesKey
    · rfl
    · intro hmem
      exact (finalCandidates_slugs_sub seen0 merged k hmem).2.2 hk

/-- C6 witness: a checkpointed key appearing in the merged map generates
no event. -/
theorem C6_witness : touchesKey "a" (runMain envOk ["a"] [] [cA]).trace = false :=
  C6_checkpoint_gating envOk ["a"] [] [cA] "a" (by decide)

/-- C7: when the gateway's update write fails for candidate key k, the
run still completes with k absent from the persisted checkpoint set and
k's record still in the snapshot, and — compared with the run in which
k's write succeeds — the snapshot is identical, the trace restricted to
other keys is identical, and checkpoint membership of every other key j
is identical. -/
theorem C7_failure_non_propagation (env : Env) (seen0 : List String)
    (index0 : List (String × Nat)) (merged : List Company) (k j : String)
    (_hgc : env.gcConfigured = true)
    (_hrow : (alookup k index0).isSome = true)
    (hk : k ∈ merged.map (fun c => c.slug)) (hk0 : k ∉ seen0) (hkne : k ≠ "")
    (hfail : env.gwOk k = false) (hj : j ≠ k) :
    k ∉ (runMain env seen0 index0 merged).seen ∧
    k ∈ ((runMain env seen0 index0 merged).snapshot.getD []).map
      (fun r => r.getD 1 "") ∧
    (runMain (envFlip env k) seen0 index0 merged).snapshot =
      (runMain env seen0 index0 merged).snapshot ∧
    filterOut k (runMain (envFlip env k) seen0 index0 merged).trace =
      filterOut k (runMain env seen0 index0 merged).trace ∧
    (j ∈ (runMain env seen0 index0 merged).seen ↔
      j ∈ (runMain (envFlip env k) seen0 index0 merged).seen) := by
  have hkfin : k ∈ (finalCandidates seen0 merged).map (fun c => c.slug) := by
    obtain ⟨c, hc, rfl⟩ := List.mem_map.mp hk
    exact List.mem_map.mpr
      ⟨c, (mem_finalCandidates seen0 merged c).mpr ⟨hc, hkne, hk0⟩, rfl⟩
  have hfin : finalCandidates seen0 merged ≠ [] := by
    intro hnil
    rw [hnil] at hkfin
    simp at hkfin
  rw [runMain_of_ne env seen0 index0 merged hfin,
    runMain_of_ne (envFlip env k) seen0 index0 merged hfin]
  obtain ⟨hsrow, hsex, hsseen, hsout, hstr⟩ :=
    simR_runLoop env k (finalCandidates seen0 merged)
      (initState seen0 index0) (initState seen0 index0) (simR_refl k _)
  refine ⟨?_, ?_, ?_, ?_, ?_⟩
  · intro hmem
    rcases (runLoop_seen_mem env (finalCandidates seen0 merged) k
        (initState seen0 index0)).mp hmem with hin | ⟨_, hok, _⟩
    · exact hk0 hin
    · rw [hfail] at hok
      exact Bool.false_ne_true hok
  · show k ∈ ((some (runLoop env (initState seen0 index0)
      (finalCandidates seen0 merged)).outputs).getD []).map (fun r => r.getD 1 "")
    rw [Option.getD_some, runLoop_outputs]
    obtain ⟨c, hc, rfl⟩ := List.mem_map.mp hkfin
    refine List.mem_map.mpr ⟨candidateRow env c, ?_, rfl⟩
    show candidateRow env c ∈ [] ++ (finalCandidates seen0 merged).map (candidateRow env)
    rw [List.nil_append]
    exact List.mem_map.mpr ⟨c, hc, rfl⟩
  · show some (runLoop (envFlip env k) (initState seen0 index0)
        (finalCandidates seen0 merged)).outputs =
      some (runLoop env (initState seen0 index0)
        (finalCandidates seen0 merged)).outputs
    rw [hsout]
  · exact hstr
  · exact hsseen j hj

/-- C7 witness: a concrete failed update for key "a" leaves "a"
uncheckpointed, keeps its snapshot row, and changes nothing about other
keys compared with the successful-run variant. -/
theorem C7_witness :
    "a" ∉ (runMain envFailAll [] [("a", 2)] [cA]).seen ∧
    "a" ∈ ((runMain envFailAll [] [("a", 2)] [cA]).snapshot.getD []).map
      (fun r => r.getD 1 "") ∧
    (runMain (envFlip envFailAll "a") [] [("a", 2)] [cA]).snapshot =
      (runMain envFailAll [] [("a", 2)] [cA]).snapshot ∧
    filterOut "a" (runMain (envFlip envFailAll "a") [] [("a", 2)] [cA]).trace =
      filterOut "a" (runMain envFailAll [] [("a", 2)] [cA]).trace ∧
    ("b" ∈ (runMain envFailAll [] [("a", 2)] [cA]).seen ↔
      "b" ∈ (runMain (envFlip envFailAll "a") [] [("a", 2)] [cA]).seen) :=
  C7_failure_non_propagation envFailAll [] [("a", 2)] [cA] "a" "b" rfl
    (by decide) (by decide) (by decide) (by decide) rfl (by decide)

/-- C8: a fresh append whose candidate row has the empty string at the
immutable column index is stamped there with the run's observation time
(hence non-empty); a candidate supplying a non-empty immutable value has
its padded row appended unchanged — in both tracker variants. -/
theorem C8_fresh_insert_stamping (now : String) (values : List String)
    (hnow : now ≠ "") :
    (values.getD 0 "" = "" →
      (YC.append_row_to_sheet now values).getD 0 "" = now ∧
      (YC.append_row_to_sheet now values).getD 0 "" ≠ "" ∧
      (PH.append_row_with_date now values).getD 0 "" = now) ∧
    (values.getD 0 "" ≠ "" →
      YC.append_row_to_sheet now values = padTo 8 values ∧
      PH.append_row_with_date now values = padTo 7 values) := by
  have hyc : YC.append_row_to_sheet now values = computeAppendValues 8 0 now values := by
    unfold YC.append_row_to_sheet
    rw [YC_dateIdx, YC_headerLen]
  have hph : PH.append_row_with_date now values = computeAppendValues 7 0 now values := by
    unfold PH.append_row_with_date
    rw [PH_dateIdx, PH_headerLen]
  obtain ⟨hx8, hy8⟩ := computeAppend_stamps 8 (by decide) now values
  obtain ⟨hx7, hy7⟩ := computeAppend_stamps 7 (by decide) now values
  constructor
  · intro h0
    refine ⟨?_, ?_, ?_⟩
    · rw [hyc]
      exact hx8 h0
    · rw [hyc, hx8 h0]
      exact hnow
    · rw [hph]
      exact hx7 h0
  · intro h0
    exact ⟨by rw [hyc]; exact hy8 h0, by rw [hph]; exact hy7 h0⟩

/-- C8 witness: concrete stamping of an empty immutable cell and
preservation of a supplied one. -/
theorem C8_witness :
    (YC.append_row_to_sheet "2025-06-01" ["", "s"]).getD 0 "" = "2025-06-01" ∧
    (PH.append_row_with_date "2025-06-01" ["", "p"]).getD 0 "" = "2025-06-01" ∧
    YC.append_row_to_sheet "2025-06-01" ["T0", "s"] = padTo 8 ["T0", "s"] := by
  have h1 := (C8_fresh_insert_stamping "2025-06-01" ["", "s"] (by decide)).1 (by decide)
  have h2 := (C8_fresh_insert_stamping "2025-06-01" ["", "p"] (by decide)).1 (by decide)
  have h3 := (C8_fresh_insert_stamping "2025-06-01" ["T0", "s"] (by decide)).2 (by decide)
  exact ⟨h1.1, h2.2.2, h3.1⟩

/-- C9 counterexample: the merger yields one record, but its key is
already checkpointed, so the run returns before writing any snapshot —
refuting "zero output only when the merger yields zero records". -/
theorem C9_counterexample :
    ([cA] : List Company) ≠ [] ∧
    (runMain envOk ["a"] [] [cA]).snapshot = none :=
  ⟨by decide, by decide⟩

/-- C9 (amended): a run writes no snapshot exactly when the
checkpoint-filtered candidate list is empty (the merger yielded nothing,
or every merged key was already checkpointed or empty); whenever at least
one candidate survives the filter, the snapshot lists every candidate's
row — an expression independent of gateway availability and of every
write outcome. -/
theorem C9_snapshot_amended (env : Env) (seen0 : List String)
    (index0 : List (String × Nat)) (merged : List Company) :
    (runMain env seen0 index0 merged).snapshot =
      (if finalCandidates seen0 merged = [] then none
       else some ((finalCandidates seen0 merged).map (candidateRow env))) := by
  by_cases hfin : finalCandidates seen0 merged = []
  · rw [runMain_of_nil env seen0 index0 merged hfin, if_pos hfin]
  · rw [runMain_of_ne env seen0 index0 merged hfin, if_neg hfin]
    show some ((runLoop env (initState seen0 index0)
      (finalCandidates seen0 merged)).outputs) = _
    rw [runLoop_outputs]
    rfl

/-- C10: the checkpoint set is monotone within a run, the persisted set's
membership is exactly "loaded or acknowledged-successful during the run",
and without a configured gateway the persisted membership equals the
loaded one. -/
theorem C10_checkpoint_monotone (env : Env) (seen0 : List String)
    (index0 : List (String × Nat)) (merged : List Company) (j : String) :
    (j ∈ seen0 → j ∈ (runMain env seen0 index0 merged).seen) ∧
    (j ∈ (runMain env seen0 index0 merged).seen ↔
      j ∈ seen0 ∨ j ∈ successSlugs (runMain env seen0 index0 merged).trace) ∧
    (env.gcConfigured = false →
      (j ∈ (runMain env seen0 index0 merged).seen ↔ j ∈ seen0)) := by
  by_cases hfin : finalCandidates seen0 merged = []
  · rw [runMain_of_nil env seen0 index0 merged hfin]
    refine ⟨fun h => h, ?_, fun _ => Iff.rfl⟩
    simp [successSlugs]
  · rw [runMain_of_ne env seen0 index0 merged hfin]
    have hseen := runLoop_seen_mem env (finalCandidates seen0 merged) j
      (initState seen0 index0)
    have hsucc := runLoop_successSlugs_mem env (finalCandidates seen0 merged) j
      (initState seen0 index0)
    have hinit : successSlugs (initState seen0 index0).trace = [] := rfl
    rw [hinit] at hsucc
    have hinits : (initState seen0 index0).seen = seen0 := rfl
    rw [hinits] at hseen
    refine ⟨fun h => hseen.mpr (Or.inl h), ?_, ?_⟩
    · show j ∈ (runLoop env (initState seen0 index0)
        (finalCandidates seen0 merged)).seen ↔
        j ∈ seen0 ∨ j ∈ successSlugs (runLoop env (initState seen0 index0)
          (finalCandidates seen0 merged)).trace
      rw [hseen, hsucc]
      simp only [List.not_mem_nil, false_or]
    · intro hgcf
      show j ∈ (runLoop env (initState seen0 index0)
        (finalCandidates seen0 merged)).seen ↔ j ∈ seen0
      rw [hseen]
      constructor
      · rintro (h | ⟨hgc, _, _⟩)
        · exact h
        · rw [hgcf] at hgc
          exact absurd hgc (by decide)
      · exact Or.inl

/-- C10 witness: monotonicity, the exact membership law, and the
no-gateway case at concrete inputs. -/
theorem C10_witness :
    ("a" ∈ (runMain envOk ["a"] [] []).seen) ∧
    ("b" ∈ (runMain envOk [] [] [cB]).seen ↔
      "b" ∈ ([] : List String) ∨
        "b" ∈ successSlugs (runMain envOk [] [] [cB]).trace) ∧
    ("b" ∈ (runMain envNoGc [] [] [cB]).seen ↔ "b" ∈ ([] : List String)) :=
  ⟨(C10_checkpoint_monotone envOk ["a"] [] [] "a").1 (by decide),
   (C10_checkpoint_monotone envOk [] [] [cB] "b").2.1,
   (C10_checkpoint_monotone envNoGc [] [] [cB] "b").2.2 rfl⟩

end YCTracker
